import Mathlib

/-!
Shallow embedding of the catapulta-auto-indexer control plane
(src/helpers.ts and the /add-contracts handler in the server entry point).

Machine-level collaborators that are not repository code are passed in
explicitly: the platform JSON parser/serializer (JSON.parse / JSON.stringify)
and the nanoid generator are fields of an `Env` record, so every theorem
holds for an arbitrary platform.  The PostgreSQL mapping table is modelled
as an in-memory association list (rows are only ever looked up by
`name_uuid` and appended, which is exactly the access pattern of the code),
the YAML configuration document as a structure, and the ABI directory as an
association list from file path to content.
-/

namespace Catapulta

/-! ## Data model (src/types.ts) -/

/-- An input/output parameter of an ABI item (types.ts `inputs`/`outputs`). -/
structure AbiParam where
  name : String
  ty : String
  indexed : Option Bool
deriving DecidableEq, Repr

/-- One entry of a contract ABI (types.ts `AbiItem`); the `type` union is
modelled as a plain string. -/
structure AbiItem where
  ty : String
  name : Option String
  inputs : Option (List AbiParam)
  outputs : Option (List AbiParam)
  stateMutability : Option String
  anonymous : Option Bool
deriving DecidableEq, Repr

/-- types.ts `ContractAbi`. -/
abbrev ContractAbi := List AbiItem

/-- The `abi` field of a request: either already-parsed structured data or a
serialized JSON string (types.ts `ContractAbi | string`). -/
inductive AbiField where
  | parsed (a : ContractAbi)
  | serialized (s : String)
deriving DecidableEq, Repr

/-- types.ts `AddContractRequest`.  Fields are `Option` so that a missing
(JavaScript `undefined`) field is representable; `none` is missing and
`some ""` is an empty string. -/
structure AddContractRequest where
  name : Option String
  report_id : Option String
  network : Option String
  address : Option String
  start_block : Option String
  abi : Option AbiField
deriving DecidableEq, Repr

/-- One element of a configuration entry's `details` list. -/
structure NetworkDetails where
  network : String
  address : String
  start_block : String
deriving DecidableEq, Repr

/-- types.ts `RindexerContract` — one Configuration Entry, keyed by `name`
(which holds the internal indexer id). -/
structure RindexerContract where
  name : String
  details : List NetworkDetails
  abi : String
deriving DecidableEq, Repr

/-- The `storage` block of the configuration document. -/
structure StorageConfig where
  postgres_enabled : Option Bool
deriving DecidableEq, Repr

/-- types.ts `RindexerConfig` — the persisted configuration document.  The
index-signature metadata (`[key: string]: any`) is modelled as an
association list of opaque strings. -/
structure RindexerConfig where
  name : Option String
  contracts : Option (List RindexerContract)
  storage : Option StorageConfig
  extra : List (String × String)
deriving DecidableEq, Repr

/-- The in-memory ABI artifact record built by `processContract`. -/
structure AbiFile where
  filename : String
  content : String
deriving DecidableEq, Repr

/-- helpers.ts `ProcessedContract`. -/
structure ProcessedContract where
  contract : RindexerContract
  abiFile : AbiFile
  indexerId : String
  isNewContract : Bool
deriving DecidableEq, Repr

/-- One element of `BatchApiResponse.results` (types.ts). -/
structure ItemResult where
  contract : String
  success : Bool
  message : Option String
  error : Option String
deriving DecidableEq, Repr

/-- types.ts `BatchApiResponse`. -/
structure BatchApiResponse where
  success : Bool
  results : List ItemResult
  error : Option String
deriving DecidableEq, Repr

/-- Platform collaborators that are not repository code: `JSON.parse`
specialised to ABI payloads (`none` models a thrown `SyntaxError`),
`JSON.stringify`, and the nanoid sequence (`nanoidSeq n` is the n-th id the
generator hands out). -/
structure Env where
  jsonParse : String → Option ContractAbi
  jsonStringify : ContractAbi → String
  nanoidSeq : Nat → String

/-- State touched by `processContract`: the `name_uuid_indexer_id_mapping`
table (rows in insertion order) and the position of the nanoid stream. -/
structure ProcState where
  rows : List (String × String)
  nextId : Nat
deriving DecidableEq, Repr

/-! ## Small utilities -/

/-- JavaScript string interpolation of a possibly-missing value:
`undefined` prints as `"undefined"` inside a template literal. -/
def jsStr (o : Option String) : String := o.getD "undefined"

/-- Truthiness of a possibly-missing string (`!contract.name` in JS is true
for `undefined` and for the empty string). -/
def strPresent : Option String → Bool
  | none => false
  | some s => !s.isEmpty

/-- Truthiness of the `abi` field: arrays are always truthy, a string is
truthy iff non-empty, `undefined` is falsy. -/
def abiPresent : Option AbiField → Bool
  | none => false
  | some (.parsed _) => true
  | some (.serialized s) => !s.isEmpty

/-- A character matched by the regex class `[a-fA-F0-9]`. -/
def isHexChar (c : Char) : Bool :=
  (decide ('a' ≤ c) && decide (c ≤ 'f')) ||
  (decide ('A' ≤ c) && decide (c ≤ 'F')) || c.isDigit

/-- helpers.ts `isValidEthereumAddress`: the regex `^0x[a-fA-F0-9]{40}$`,
expressed over the character sequence of the string. -/
def isValidEthereumAddress (s : String) : Bool :=
  decide (s.length = 42) && decide (s.data.take 2 = ['0', 'x']) &&
    (s.data.drop 2).all isHexChar

/-- helpers.ts `parseAbi`, lifted to a possibly-missing field.
`JSON.parse` throwing is the `.error` case; a missing field passes through
untouched (in JS, `typeof undefined !== "string"` so the value is returned
as-is). -/
def parseAbiField (jsonParse : String → Option ContractAbi) :
    Option AbiField → Except String (Option ContractAbi)
  | none => .ok none
  | some (.parsed a) => .ok (some a)
  | some (.serialized s) =>
    match jsonParse s with
    | some a => .ok (some a)
    | none => .error "Unexpected token in JSON"

/-- `JSON.stringify` of the parsed ABI (post-validation the field is always
present; the `undefined` fallback mirrors JS stringification of
`undefined`). -/
def jsonStringifyOpt (env : Env) : Option ContractAbi → String
  | some a => env.jsonStringify a
  | none => "undefined"

/-! ## Validation (helpers.ts) -/

/-- helpers.ts `MAX_CONTRACTS_PER_REQUEST`. -/
def MAX_CONTRACTS_PER_REQUEST : Nat := 50

/-- helpers.ts `validateBatchRequest`.  The body's `contracts` field is
`none` when missing or not an array. -/
def validateBatchRequest (contracts : Option (List AddContractRequest)) :
    Option String :=
  match contracts with
  | none => some "Missing or invalid contracts array"
  | some l =>
    if l.length = 0 then some "Contracts array cannot be empty"
    else if MAX_CONTRACTS_PER_REQUEST < l.length then
      some "Maximum 50 contracts allowed per batch"
    else none

/-- helpers.ts `validateContract`: the exact sequence of checks of the
source, returning the first failure message or `none`. -/
def validateContract (jsonParse : String → Option ContractAbi)
    (c : AddContractRequest) : Option String :=
  if !strPresent c.name then
    some "Contract name is required and must be a string"
  else if !strPresent c.report_id then
    some "Report ID is required and must be a string"
  else if !strPresent c.address then
    some "Contract address is required and must be a string"
  else if !isValidEthereumAddress (c.address.getD "") then
    some "Invalid Ethereum address format"
  else if !abiPresent c.abi then
    some "Contract ABI is required"
  else
    match parseAbiField jsonParse c.abi with
    | .error _ => some "Invalid ABI format - must be valid JSON"
    | .ok _ => none

/-! ## Registration processor (helpers.ts processContract) -/

/-- The composite key `` `${contract.name}_${contract.report_id}` ``. -/
def nameUuidOf (c : AddContractRequest) : String :=
  jsStr c.name ++ "_" ++ jsStr c.report_id

/-- helpers.ts: `` `${indexerId}.abi.json` ``. -/
def abiFilename (indexerId : String) : String := indexerId ++ ".abi.json"

/-- First-match lookup by key, the access pattern of the SQL
`SELECT ... WHERE name_uuid = $1`. -/
def findByKey (key : α → String) (k : String) (l : List α) : Option α :=
  l.find? (fun e => key e == k)

/-- Lookup of `indexer_id` by `name_uuid` in the mapping table. -/
def lookupIndexerId (rows : List (String × String)) (k : String) :
    Option String :=
  (findByKey (fun r => r.1) k rows).map (fun r => r.2)

/-- helpers.ts `ABIS_DIR`. -/
def ABIS_DIR : String := "/workspace/abis"

/-- The `ProcessedContract` record built at the end of helpers.ts
`processContract` for a resolved indexer id. -/
def mkProcessed (env : Env) (c : AddContractRequest)
    (abi? : Option ContractAbi) (indexerId : String) (isNew : Bool) :
    ProcessedContract :=
  { contract :=
      { name := indexerId
        details :=
          [{ network := jsStr c.network, address := jsStr c.address,
             start_block := jsStr c.start_block }]
        abi := "./abis/" ++ abiFilename indexerId }
    abiFile :=
      { filename := abiFilename indexerId
        content := jsonStringifyOpt env abi? }
    indexerId := indexerId
    isNewContract := isNew }

/-- helpers.ts `processContract`: parse the ABI, resolve-or-create the
indexer id against the mapping table, and build the Configuration Entry and
Artifact Record.  `path.relative("/workspace", "/workspace/abis/<f>")`
evaluates to `abis/<f>`, so the stored reference is `./abis/<f>`. -/
def processContract (env : Env) (c : AddContractRequest) (st : ProcState) :
    Except String (ProcessedContract × ProcState) :=
  match parseAbiField env.jsonParse c.abi with
  | .error e => .error e
  | .ok abi? =>
    match lookupIndexerId st.rows (nameUuidOf c) with
    | some id => .ok (mkProcessed env c abi? id false, st)
    | none =>
      .ok (mkProcessed env c abi? (env.nanoidSeq st.nextId) true,
        { rows := st.rows ++ [(nameUuidOf c, env.nanoidSeq st.nextId)],
          nextId := st.nextId + 1 })

/-! ## Batch coordinator (helpers.ts processContractBatch) -/

/-- helpers.ts `processContractBatch`: per item, validate then process,
collecting one result per item, the successfully processed contracts in
order, and the threaded mapping-store state. -/
def processContractBatch (env : Env) (contracts : List AddContractRequest)
    (st : ProcState) :
    List ItemResult × List ProcessedContract × ProcState :=
  match contracts with
  | [] => ([], [], st)
  | c :: rest =>
    match validateContract env.jsonParse c with
    | some err =>
      ({ contract := nameUuidOf c, success := false, message := none,
          error := some err } :: (processContractBatch env rest st).1,
       (processContractBatch env rest st).2.1,
       (processContractBatch env rest st).2.2)
    | none =>
      match processContract env c st with
      | .ok pst =>
        ({ contract := nameUuidOf c, success := true,
            message :=
              some ("Contract \"" ++ nameUuidOf c ++ "\" " ++
                (if pst.1.isNewContract then "added" else "replaced") ++
                " successfully"),
            error := none } :: (processContractBatch env rest pst.2).1,
         pst.1 :: (processContractBatch env rest pst.2).2.1,
         (processContractBatch env rest pst.2).2.2)
      | .error e =>
        ({ contract := nameUuidOf c, success := false, message := none,
            error := some e } :: (processContractBatch env rest st).1,
         (processContractBatch env rest st).2.1,
         (processContractBatch env rest st).2.2)

/-! ## Map-based merging (JS `Map.set` then `Array.from(map.values())`) -/

/-- JavaScript `Map.set` as seen through `Array.from(map.values())`: if the
key is present its value is replaced in place (insertion order kept),
otherwise the pair is appended. -/
def upsertBy (key : α → String) (l : List α) (x : α) : List α :=
  if l.any (fun e => key e == key x) then
    l.map (fun e => if key e == key x then x else e)
  else l ++ [x]

/-- The keys of an association-style list. -/
def keysOf (key : α → String) (l : List α) : List String := l.map key

/-- The last element of `l` whose key is `k` (JS map semantics: the last
`set` for a key wins). -/
def lastBy (key : α → String) (k : String) (l : List α) : Option α :=
  findByKey key k l.reverse

/-- helpers.ts `updateRindexerConfig`'s merge of the `contracts` list:
build a `Map` from the existing entries keyed by `name`, overlay the new
entries, and read the values back out. -/
def mergeContracts (ex new : List RindexerContract) : List RindexerContract :=
  new.foldl (upsertBy RindexerContract.name)
    (ex.foldl (upsertBy RindexerContract.name) [])

/-- helpers.ts `updateRindexerConfig`: full read-modify-write of the
configuration document, replacing only the `contracts` field. -/
def updateRindexerConfig (newContracts : List RindexerContract)
    (config : RindexerConfig) : RindexerConfig :=
  { config with
    contracts := some (mergeContracts (config.contracts.getD []) newContracts) }

/-- helpers.ts `prepareContractBatch`: deduplicate the processed contracts
by configuration-entry name and the ABI records by filename, last write
wins. -/
def prepareContractBatch (ps : List ProcessedContract) :
    List RindexerContract × List AbiFile :=
  (ps.foldl (fun m p => upsertBy RindexerContract.name m p.contract) [],
   ps.foldl (fun m p => upsertBy AbiFile.filename m p.abiFile) [])

/-! ## Artifact writer (helpers.ts writeAbiFiles) -/

/-- The on-disk path of an artifact record
(`path.join(ABIS_DIR, abiFile.filename)`). -/
def abiFilePath (filename : String) : String := ABIS_DIR ++ "/" ++ filename

/-- helpers.ts `writeAbiFiles` against a filesystem modelled as an
association list from path to content; `fs.writeFile` replaces the content
of an existing path and creates the file otherwise. -/
def writeAbiFiles (fs : List (String × String)) (abiFiles : List AbiFile) :
    List (String × String) :=
  abiFiles.foldl
    (fun fs f => upsertBy Prod.fst fs (abiFilePath f.filename, f.content)) fs

/-! ## POST /add-contracts handler -/

/-- All mutable state the handler can touch: the mapping table and nanoid
position, the configuration document, the ABI directory, and the number of
times the supervised rindexer process has been (re)started. -/
structure WorldState where
  rows : List (String × String)
  nextId : Nat
  config : RindexerConfig
  files : List (String × String)
  restarts : Nat
deriving DecidableEq, Repr

/-- The POST /add-contracts handler: batch-level validation, per-item
processing, then (iff at least one item was processed) the commit phase —
merge the configuration, write the ABI files, restart the indexer. -/
def addContractsHandler (env : Env)
    (body : Option (List AddContractRequest)) (w : WorldState) :
    BatchApiResponse × WorldState :=
  match validateBatchRequest body with
  | some err => ({ success := false, results := [], error := some err }, w)
  | none =>
    match processContractBatch env (body.getD [])
      { rows := w.rows, nextId := w.nextId } with
    | (results, processed, st) =>
      if processed.isEmpty then
        ({ success := false, results := results,
           error := some "No valid contracts to add." },
         { w with rows := st.rows, nextId := st.nextId })
      else
        ({ success := true, results := results, error := none },
         { rows := st.rows, nextId := st.nextId,
           config :=
             updateRindexerConfig (prepareContractBatch processed).1 w.config,
           files := writeAbiFiles w.files (prepareContractBatch processed).2,
           restarts := w.restarts + 1 })

/-! ## Process supervisor restart (helpers.ts restartRindexerProcess) -/

/-- helpers.ts: the `setTimeout(..., 5000)` force-kill deadline (ms). -/
def SIGTERM_TIMEOUT : Nat := 5000

/-- helpers.ts: the `setTimeout(resolve, 1000)` settle delay (ms). -/
def SETTLE_DELAY : Nat := 1000

/-- Behaviour of the supervised process during a restart: `termDelay` is
the time after SIGTERM at which it would exit on its own (`none`: it
ignores SIGTERM), `killDelay` the time from SIGKILL to exit. -/
structure ProcBehavior where
  termDelay : Option Nat
  killDelay : Nat
deriving DecidableEq, Repr

/-- Whether the 5-second force-kill timer fires: `clearTimeout` runs only
after `await proc.exited`, so the timer fires unless the process exits on
its own before the deadline. -/
def killFires (b : ProcBehavior) : Bool :=
  match b.termDelay with
  | some d => decide (SIGTERM_TIMEOUT ≤ d)
  | none => true

/-- The instant the old process actually exits, measured from the SIGTERM. -/
def exitTime (b : ProcBehavior) : Nat :=
  match b.termDelay with
  | some d =>
    if d < SIGTERM_TIMEOUT then d else min d (SIGTERM_TIMEOUT + b.killDelay)
  | none => SIGTERM_TIMEOUT + b.killDelay

/-- A timed event in `restartRindexerProcess`. -/
inductive RestartEvent where
  | sigterm (t : Nat)
  | sigkill (t : Nat)
  | exited (t : Nat)
  | spawned (t : Nat)
deriving DecidableEq, Repr

/-- The event trace of `restartRindexerProcess` when a process is held:
SIGTERM at once; SIGKILL at the 5000 ms mark if the process has not exited
by itself; then `await proc.exited`; then the 1000 ms settle delay; then
the fresh spawn. -/
def restartTrace (b : ProcBehavior) : List RestartEvent :=
  [RestartEvent.sigterm 0] ++
    (if killFires b then [RestartEvent.sigkill SIGTERM_TIMEOUT] else []) ++
    [RestartEvent.exited (exitTime b),
     RestartEvent.spawned (exitTime b + SETTLE_DELAY)]

/-- The spawn instant of the replacement process. -/
def spawnTime (b : ProcBehavior) : Nat := exitTime b + SETTLE_DELAY

/-! ## Concrete fixtures used by witnesses -/

/-- A concrete platform: a JSON parser that rejects everything (witnesses
below only use structured ABIs), a serializer, and a decimal nanoid
stream. -/
def env0 : Env :=
  { jsonParse := fun _ => none
    jsonStringify := fun _ => "[]"
    nanoidSeq := fun n => Nat.repr n }

/-- A well-formed 0x-prefixed 40-hex-digit address. -/
def goodAddr : String := "0xaaaaaaaaaaaaaaaaaaaaaaaaaaaaaaaaaaaaaaaa"

/-- A fully valid registration request. -/
def c0 : AddContractRequest :=
  { name := some "Token", report_id := some "r1", network := some "eth",
    address := some goodAddr, start_block := some "0",
    abi := some (.parsed []) }

/-- A request that fails validation (missing name). -/
def cBad : AddContractRequest :=
  { name := none, report_id := some "r1", network := some "eth",
    address := some goodAddr, start_block := some "0",
    abi := some (.parsed []) }

/-- A concrete configuration document. -/
def cfg0 : RindexerConfig :=
  { name := some "proj", contracts := some [],
    storage := some { postgres_enabled := some true }, extra := [] }

/-- A concrete world state. -/
def w0 : WorldState :=
  { rows := [], nextId := 0, config := cfg0, files := [], restarts := 0 }

/-- A concrete configuration entry used by witnesses. -/
def entB : RindexerContract :=
  { name := "b", details := [], abi := "./abis/b.abi.json" }

/-- A request with every implemented check satisfied but with `network` and
`start_block` missing. -/
def c3req : AddContractRequest :=
  { name := some "Token", report_id := some "r1", network := none,
    address := some goodAddr, start_block := none,
    abi := some (.parsed []) }

/-- The response of the handler on the one-item batch `[cBad]` whose only
item fails validation. -/
def respBad : BatchApiResponse :=
  { success := false
    results := [{ contract := "undefined_r1", success := false,
                  message := none,
                  error :=
                    some "Contract name is required and must be a string" }]
    error := some "No valid contracts to add." }

/-! ## Generic lemmas about `upsertBy` / `findByKey` / `lastBy` -/

theorem findByKey_eq_none_of_not_mem (key : α → String) (k : String)
    (l : List α) (h : k ∉ keysOf key l) : findByKey key k l = none := by
  rw [findByKey, List.find?_eq_none]
  intro x hx hxk
  rw [beq_iff_eq] at hxk
  exact h (by rw [keysOf]; exact List.mem_map.mpr ⟨x, hx, hxk⟩)

theorem any_key_iff_mem (key : α → String) (c : α) (l : List α) :
    (l.any (fun e => key e == key c)) = true ↔ key c ∈ keysOf key l := by
  simp only [List.any_eq_true, keysOf, List.mem_map, beq_iff_eq]

theorem findByKey_cons (key : α → String) (k : String) (e : α) (l : List α) :
    findByKey key k (e :: l) =
      if key e == k then some e else findByKey key k l := by
  by_cases h : (key e == k) = true
  · rw [findByKey, List.find?_cons_of_pos (p := fun e => key e == k) l h,
      if_pos h]
  · rw [findByKey,
      List.find?_cons_of_neg (p := fun e => key e == k) l (by simpa using h),
      if_neg h, findByKey]

theorem findByKey_map_replace_ne (key : α → String) (c : α) (k : String)
    (hne : key c ≠ k) (l : List α) :
    findByKey key k (l.map (fun e => if key e == key c then c else e)) =
      findByKey key k l := by
  induction l with
  | nil => rfl
  | cons e l ih =>
    rw [List.map_cons]
    by_cases he : key e = key c
    · rw [if_pos (by simpa using he), findByKey_cons, findByKey_cons,
        if_neg (by simpa using hne), if_neg (by simp [he, hne]), ih]
    · rw [if_neg (by simpa using he), findByKey_cons, findByKey_cons, ih]

theorem findByKey_map_replace_self (key : α → String) (c : α) (l : List α) :
    findByKey key (key c) (l.map (fun e => if key e == key c then c else e)) =
      if l.any (fun e => key e == key c) then some c else none := by
  induction l with
  | nil => rfl
  | cons e l ih =>
    rw [List.map_cons, List.any_cons]
    by_cases he : key e = key c
    · rw [if_pos (by simpa using he), findByKey_cons, if_pos (by simp),
        if_pos (by simp [he])]
    · rw [if_neg (by simpa using he), findByKey_cons, if_neg (by simpa using he),
        ih]
      have hfalse : (key e == key c) = false := by simp [he]
      rw [hfalse, Bool.false_or]

theorem findByKey_upsertBy (key : α → String) (l : List α) (c : α)
    (k : String) :
    findByKey key k (upsertBy key l c) =
      if key c == k then some c else findByKey key k l := by
  rw [upsertBy]
  by_cases hany : (l.any fun e => key e == key c) = true
  · rw [if_pos hany]
    by_cases hk : key c = k
    · subst hk
      rw [findByKey_map_replace_self, if_pos hany, if_pos (by simp)]
    · rw [findByKey_map_replace_ne key c k hk l, if_neg (by simpa using hk)]
  · rw [if_neg hany]
    by_cases hk : key c = k
    · subst hk
      rw [findByKey, List.find?_append]
      have h1 : List.find? (fun e => key e == key c) l = none := by
        rw [List.find?_eq_none]
        intro x hx hcon
        exact hany (List.any_eq_true.mpr ⟨x, hx, hcon⟩)
      rw [h1, Option.none_or, if_pos (by simp)]
      simp
    · rw [findByKey, List.find?_append]
      have h2 : List.find? (fun e => key e == k) [c] = none := by
        simp [hk]
      rw [h2, Option.or_none, if_neg (by simpa using hk), findByKey]

theorem keysOf_map_replace (key : α → String) (c : α) (l : List α) :
    keysOf key (l.map (fun e => if key e == key c then c else e)) =
      keysOf key l := by
  induction l with
  | nil => rfl
  | cons e l ih =>
    by_cases he : key e = key c
    · rw [List.map_cons, if_pos (by simpa using he)]
      simp only [keysOf, List.map_cons] at *
      rw [ih, he]
    · rw [List.map_cons, if_neg (by simpa using he)]
      simp only [keysOf, List.map_cons] at *
      rw [ih]

theorem keysOf_upsertBy (key : α → String) (l : List α) (c : α) :
    keysOf key (upsertBy key l c) =
      if key c ∈ keysOf key l then keysOf key l
      else keysOf key l ++ [key c] := by
  rw [upsertBy]
  by_cases hm : key c ∈ keysOf key l
  · rw [if_pos ((any_key_iff_mem key c l).mpr hm), if_pos hm,
      keysOf_map_replace]
  · rw [if_neg (fun ha => hm ((any_key_iff_mem key c l).mp ha)), if_neg hm]
    simp [keysOf]

theorem nodup_keysOf_upsertBy (key : α → String) (l : List α) (c : α)
    (h : (keysOf key l).Nodup) : (keysOf key (upsertBy key l c)).Nodup := by
  rw [keysOf_upsertBy]
  split
  · exact h
  · rename_i hm
    rw [List.nodup_append]
    refine ⟨h, List.nodup_singleton _, ?_⟩
    intro a ha hb
    rw [List.mem_singleton] at hb
    exact hm (hb ▸ ha)

theorem nodup_keysOf_foldl_upsertBy (key : α → String) (cs : List α)
    (m : List α) (h : (keysOf key m).Nodup) :
    (keysOf key (cs.foldl (upsertBy key) m)).Nodup := by
  induction cs generalizing m with
  | nil => exact h
  | cons c cs ih =>
    exact ih (upsertBy key m c) (nodup_keysOf_upsertBy key m c h)

theorem lastBy_cons (key : α → String) (k : String) (c : α) (l : List α) :
    lastBy key k (c :: l) =
      (lastBy key k l).or (if key c == k then some c else none) := by
  rw [lastBy, List.reverse_cons, findByKey, List.find?_append, ← findByKey,
    ← lastBy]
  congr 1
  by_cases hk : (key c == k) = true
  · rw [if_pos hk, List.find?_cons_of_pos (p := fun e => key e == k) _ hk]
  · rw [if_neg hk,
      List.find?_cons_of_neg (p := fun e => key e == k) _ (by simpa using hk),
      List.find?_nil]

theorem findByKey_foldl_upsertBy (key : α → String) (cs : List α)
    (m : List α) (k : String) :
    findByKey key k (cs.foldl (upsertBy key) m) =
      (lastBy key k cs).or (findByKey key k m) := by
  induction cs generalizing m with
  | nil =>
    simp only [List.foldl_nil, lastBy, List.reverse_nil, findByKey,
      List.find?_nil, Option.none_or]
  | cons c cs ih =>
    rw [List.foldl_cons, ih, lastBy_cons, findByKey_upsertBy]
    by_cases hk : key c = k
    · rw [if_pos (by simpa using hk), if_pos (by simpa using hk),
        Option.or_assoc, Option.or_some]
    · rw [if_neg (by simpa using hk), if_neg (by simpa using hk),
        Option.or_none]

theorem findByKey_eq_some_of_mem (key : α → String) (l : List α) (c : α)
    (h : (keysOf key l).Nodup) (hc : c ∈ l) :
    findByKey key (key c) l = some c := by
  induction l with
  | nil => cases hc
  | cons e l ih =>
    simp only [keysOf, List.map_cons, List.nodup_cons] at h
    rcases List.mem_cons.mp hc with rfl | hc'
    · rw [findByKey, List.find?_cons_of_pos _ (by simp)]
    · by_cases he : key e = key c
      · exact absurd (List.mem_map.mpr ⟨c, hc', rfl⟩) (he ▸ h.1)
      · rw [findByKey, List.find?_cons_of_neg _ (by simpa using he), ← findByKey]
        exact ih h.2 hc'

theorem mem_keysOf_of_lastBy_isSome (key : α → String) (k : String)
    (l : List α) (h : (lastBy key k l).isSome = true) : k ∈ keysOf key l := by
  rw [lastBy, findByKey, List.find?_isSome] at h
  obtain ⟨x, hx, hkx⟩ := h
  rw [keysOf, List.mem_map]
  exact ⟨x, List.mem_reverse.mp hx, by simpa using hkx⟩

theorem lastBy_isSome_of_mem_keysOf (key : α → String) (k : String)
    (l : List α) (h : k ∈ keysOf key l) : (lastBy key k l).isSome = true := by
  rw [lastBy, findByKey, List.find?_isSome]
  rw [keysOf, List.mem_map] at h
  obtain ⟨x, hx, hkx⟩ := h
  exact ⟨x, List.mem_reverse.mpr hx, by simpa using hkx⟩

theorem lastBy_eq_none_of_not_mem (key : α → String) (k : String)
    (l : List α) (h : k ∉ keysOf key l) : lastBy key k l = none := by
  rw [lastBy]
  refine findByKey_eq_none_of_not_mem key k l.reverse (fun hm => h ?_)
  rw [keysOf, List.mem_map] at hm ⊢
  obtain ⟨x, hx, hkx⟩ := hm
  exact ⟨x, List.mem_reverse.mp hx, hkx⟩

theorem lastBy_mem_and_key (key : α → String) (k : String) (l : List α)
    (x : α) (h : lastBy key k l = some x) : x ∈ l ∧ key x = k := by
  rw [lastBy, findByKey] at h
  exact ⟨List.mem_reverse.mp (List.mem_of_find?_eq_some h),
    by simpa using List.find?_some h⟩

theorem filter_key_length_one (key : α → String) (k : String) (l : List α)
    (h : (keysOf key l).Nodup) (x : α) (hx : findByKey key k l = some x) :
    (l.filter (fun e => key e == k)).length = 1 := by
  induction l with
  | nil => simp [findByKey] at hx
  | cons e l ih =>
    simp only [keysOf, List.map_cons, List.nodup_cons] at h
    by_cases he : key e = k
    · rw [List.filter_cons_of_pos (by simpa using he)]
      have : l.filter (fun e' => key e' == k) = [] := by
        rw [List.filter_eq_nil_iff]
        intro a ha hak
        rw [beq_iff_eq] at hak
        exact h.1 (List.mem_map.mpr ⟨a, ha, by rw [hak, he]⟩)
      rw [this]
      rfl
    · rw [List.filter_cons_of_neg (by simpa using he)]
      rw [findByKey, List.find?_cons_of_neg _ (by simpa using he),
        ← findByKey] at hx
      exact ih h.2 hx

/-! ## Lemmas about the mapping store and the registration processor -/

theorem lookupIndexerId_append_of_some (rows l2 : List (String × String))
    (k v : String) (h : lookupIndexerId rows k = some v) :
    lookupIndexerId (rows ++ l2) k = some v := by
  rw [lookupIndexerId, findByKey, List.find?_append]
  rw [lookupIndexerId, findByKey] at h
  cases hf : List.find? (fun r => r.1 == k) rows with
  | none => rw [hf] at h; simp at h
  | some r =>
    rw [hf] at h
    rw [Option.or_some]
    exact h

theorem lookupIndexerId_append_self (rows : List (String × String))
    (u v : String) (h : lookupIndexerId rows u = none) :
    lookupIndexerId (rows ++ [(u, v)]) u = some v := by
  rw [lookupIndexerId, findByKey, List.find?_append]
  rw [lookupIndexerId, findByKey] at h
  cases hf : List.find? (fun r => r.1 == u) rows with
  | none =>
    rw [Option.none_or]
    simp
  | some r => rw [hf] at h; simp at h

theorem parse_ok_of_validate_none (jp : String → Option ContractAbi)
    (c : AddContractRequest) (h : validateContract jp c = none) :
    ∃ a, parseAbiField jp c.abi = .ok a := by
  rw [validateContract] at h
  split at h
  · simp at h
  split at h
  · simp at h
  split at h
  · simp at h
  split at h
  · simp at h
  split at h
  · simp at h
  split at h
  · simp at h
  next a heq => exact ⟨a, heq⟩

theorem processContract_isOk (env : Env) (c : AddContractRequest)
    (st : ProcState) (a : Option ContractAbi)
    (hp : parseAbiField env.jsonParse c.abi = .ok a) :
    ∃ p st', processContract env c st = .ok (p, st') := by
  rw [processContract, hp]
  cases hl : lookupIndexerId st.rows (nameUuidOf c) with
  | some id => exact ⟨_, _, rfl⟩
  | none => exact ⟨_, _, rfl⟩

theorem processContract_some (env : Env) (c : AddContractRequest)
    (st : ProcState) (a : Option ContractAbi) (id : String)
    (hp : parseAbiField env.jsonParse c.abi = .ok a)
    (hl : lookupIndexerId st.rows (nameUuidOf c) = some id) :
    processContract env c st = .ok (mkProcessed env c a id false, st) := by
  rw [processContract, hp, hl]

theorem processContract_none (env : Env) (c : AddContractRequest)
    (st : ProcState) (a : Option ContractAbi)
    (hp : parseAbiField env.jsonParse c.abi = .ok a)
    (hl : lookupIndexerId st.rows (nameUuidOf c) = none) :
    processContract env c st =
      .ok (mkProcessed env c a (env.nanoidSeq st.nextId) true,
        { rows := st.rows ++ [(nameUuidOf c, env.nanoidSeq st.nextId)],
          nextId := st.nextId + 1 }) := by
  rw [processContract, hp, hl]

theorem processContractBatch_map_results (env : Env)
    (cs : List AddContractRequest) (st : ProcState) :
    ((processContractBatch env cs st).1.map ItemResult.contract =
      cs.map nameUuidOf) ∧
    ((processContractBatch env cs st).1.map ItemResult.success =
      cs.map (fun c => (validateContract env.jsonParse c).isNone)) := by
  induction cs generalizing st with
  | nil => exact ⟨rfl, rfl⟩
  | cons c cs ih =>
    rw [processContractBatch]
    cases hv : validateContract env.jsonParse c with
    | some err =>
      simp only [List.map_cons, hv, Option.isNone_some]
      exact ⟨congrArg _ (ih st).1, congrArg _ (ih st).2⟩
    | none =>
      obtain ⟨a, hp⟩ := parse_ok_of_validate_none _ _ hv
      obtain ⟨p, st', hok⟩ := processContract_isOk env c st a hp
      rw [hok]
      simp only [List.map_cons, hv, Option.isNone_none]
      exact ⟨congrArg _ (ih st').1, congrArg _ (ih st').2⟩

theorem processContractBatch_length (env : Env)
    (cs : List AddContractRequest) (st : ProcState) :
    (processContractBatch env cs st).1.length = cs.length := by
  have h := (processContractBatch_map_results env cs st).1
  calc (processContractBatch env cs st).1.length
      = ((processContractBatch env cs st).1.map ItemResult.contract).length :=
        (List.length_map _ _).symm
    _ = (cs.map nameUuidOf).length := by rw [h]
    _ = cs.length := List.length_map _ _

theorem processed_nil_of_all_fail (env : Env) (cs : List AddContractRequest)
    (st : ProcState)
    (h : ∀ r ∈ (processContractBatch env cs st).1, r.success = false) :
    (processContractBatch env cs st).2.1 = [] := by
  induction cs generalizing st with
  | nil => rfl
  | cons c cs ih =>
    rw [processContractBatch] at h ⊢
    cases hv : validateContract env.jsonParse c with
    | some err =>
      rw [hv] at h
      exact ih st (fun r hr => h r (List.mem_cons_of_mem _ hr))
    | none =>
      obtain ⟨a, hp⟩ := parse_ok_of_validate_none _ _ hv
      obtain ⟨p, st', hok⟩ := processContract_isOk env c st a hp
      rw [hv, hok] at h
      exact absurd (h _ (List.mem_cons_self _ _)) (by simp)

/-! ## Claim theorems -/

/-- C1: `processContract` is a stable resolve-or-create: on a key with no
mapping it generates the next fresh id, persists the mapping and marks the
registration as an insert (`isNewContract = true`); on a key that is
already mapped it returns the stored id, leaves the store untouched and
marks the registration as an update (`isNewContract = false`); and it never
changes the id any existing key resolves to, so repeated calls on the same
composite key return the same internal id every time. -/
theorem resolve_or_create_stable (env : Env) (c : AddContractRequest)
    (st : ProcState) (p : ProcessedContract) (st' : ProcState)
    (h : processContract env c st = .ok (p, st')) :
    (lookupIndexerId st.rows (nameUuidOf c) = none →
      p.isNewContract = true ∧
      lookupIndexerId st'.rows (nameUuidOf c) = some p.indexerId ∧
      st'.rows = st.rows ++ [(nameUuidOf c, p.indexerId)]) ∧
    (∀ id, lookupIndexerId st.rows (nameUuidOf c) = some id →
      p.isNewContract = false ∧ p.indexerId = id ∧ st' = st) ∧
    (∀ k v, lookupIndexerId st.rows k = some v →
      lookupIndexerId st'.rows k = some v) := by
  cases hp : parseAbiField env.jsonParse c.abi with
  | error e =>
    rw [processContract, hp] at h
    exact absurd h (by simp)
  | ok a =>
    cases hl : lookupIndexerId st.rows (nameUuidOf c) with
    | some id =>
      rw [processContract_some env c st a id hp hl] at h
      simp only [Except.ok.injEq, Prod.mk.injEq] at h
      obtain ⟨hP, hS⟩ := h
      subst hP hS
      refine ⟨?_, ?_, ?_⟩
      · intro hnone
        exact absurd hnone (by simp)
      · intro id' hid
        injection hid with hid
        subst hid
        exact ⟨rfl, rfl, rfl⟩
      · intro k v hkv
        exact hkv
    | none =>
      rw [processContract_none env c st a hp hl] at h
      simp only [Except.ok.injEq, Prod.mk.injEq] at h
      obtain ⟨hP, hS⟩ := h
      subst hP hS
      refine ⟨?_, ?_, ?_⟩
      · intro _
        exact ⟨rfl, lookupIndexerId_append_self st.rows _ _ hl, rfl⟩
      · intro id hid
        exact absurd hid (by simp)
      · intro k v hkv
        exact lookupIndexerId_append_of_some st.rows _ k v hkv

/-- Witness for C1 at a concrete first call: the store is empty, so the
call is an insert that persists the mapping for the composite key. -/
theorem resolve_or_create_stable_witness :
    processContract env0 c0 { rows := [], nextId := 0 } =
      .ok (mkProcessed env0 c0 (some []) "0" true,
        { rows := [("Token_r1", "0")], nextId := 1 }) ∧
    (lookupIndexerId ([] : List (String × String)) (nameUuidOf c0) = none →
      (mkProcessed env0 c0 (some []) "0" true).isNewContract = true ∧
      lookupIndexerId [("Token_r1", "0")] (nameUuidOf c0) =
        some (mkProcessed env0 c0 (some []) "0" true).indexerId ∧
      ([("Token_r1", "0")] : List (String × String)) =
        [] ++ [(nameUuidOf c0,
          (mkProcessed env0 c0 (some []) "0" true).indexerId)]) :=
  ⟨rfl,
    (resolve_or_create_stable env0 c0 { rows := [], nextId := 0 }
      (mkProcessed env0 c0 (some []) "0" true)
      { rows := [("Token_r1", "0")], nextId := 1 } rfl).1⟩

/-- C9: for a process that ignores graceful termination, the restart trace
is SIGTERM at 0, forced SIGKILL exactly at the 5000 ms mark, the old
process's actual exit, the 1000 ms settle delay, and only then the fresh
spawn; the spawn instant is strictly after the old process's exit, so the
two processes never run concurrently. -/
theorem restart_force_kill_ordering (b : ProcBehavior)
    (h : b.termDelay = none) :
    restartTrace b =
      [RestartEvent.sigterm 0, RestartEvent.sigkill 5000,
       RestartEvent.exited (5000 + b.killDelay),
       RestartEvent.spawned (5000 + b.killDelay + 1000)] ∧
    exitTime b < spawnTime b := by
  constructor
  · rw [restartTrace, killFires, exitTime, h]
    rfl
  · rw [spawnTime, SETTLE_DELAY]
    omega

/-- Witness for C9 with a process that dies instantly on SIGKILL. -/
theorem restart_force_kill_ordering_witness :
    (ProcBehavior.mk none 0).termDelay = none ∧
    (restartTrace (ProcBehavior.mk none 0) =
      [RestartEvent.sigterm 0, RestartEvent.sigkill 5000,
       RestartEvent.exited (5000 + (ProcBehavior.mk none 0).killDelay),
       RestartEvent.spawned (5000 + (ProcBehavior.mk none 0).killDelay + 1000)] ∧
     exitTime (ProcBehavior.mk none 0) < spawnTime (ProcBehavior.mk none 0)) :=
  ⟨rfl, restart_force_kill_ordering (ProcBehavior.mk none 0) rfl⟩

/-- C10: the configuration merge rewrites only the `contracts` field of the
document; the project name, the storage flags and all additional metadata
are written back unchanged. -/
theorem merge_preserves_other_fields (ncs : List RindexerContract)
    (cfg : RindexerConfig) :
    (updateRindexerConfig ncs cfg).name = cfg.name ∧
    (updateRindexerConfig ncs cfg).storage = cfg.storage ∧
    (updateRindexerConfig ncs cfg).extra = cfg.extra :=
  ⟨rfl, rfl, rfl⟩

/-! ## Merge characterization helpers -/

theorem findByKey_mem_key (key : α → String) (k : String) (l : List α)
    (x : α) (h : findByKey key k l = some x) : x ∈ l ∧ key x = k := by
  rw [findByKey] at h
  exact ⟨List.mem_of_find?_eq_some h, by simpa using List.find?_some h⟩

theorem findByKey_mergeContracts (ex new : List RindexerContract)
    (k : String) :
    findByKey RindexerContract.name k (mergeContracts ex new) =
      (lastBy RindexerContract.name k new).or
        (lastBy RindexerContract.name k ex) := by
  rw [mergeContracts, findByKey_foldl_upsertBy, findByKey_foldl_upsertBy,
    show findByKey RindexerContract.name k ([] : List RindexerContract) =
      none from rfl, Option.or_none]

theorem nodup_mergeContracts (ex new : List RindexerContract) :
    (keysOf RindexerContract.name (mergeContracts ex new)).Nodup := by
  rw [mergeContracts]
  exact nodup_keysOf_foldl_upsertBy _ new _
    (nodup_keysOf_foldl_upsertBy _ ex [] (by simp [keysOf]))

/-- C5: the batch coordinator returns exactly one per-item result per input
item, each result is tagged with that item's composite key, and an item's
success is a function of that item alone (it validates successfully),
independent of the other items of the batch — so one item's failure never
aborts the rest. -/
theorem batch_one_result_per_item (env : Env)
    (cs : List AddContractRequest) (st : ProcState) :
    (processContractBatch env cs st).1.length = cs.length ∧
    (processContractBatch env cs st).1.map ItemResult.contract =
      cs.map nameUuidOf ∧
    (processContractBatch env cs st).1.map ItemResult.success =
      cs.map (fun c => (validateContract env.jsonParse c).isNone) :=
  ⟨processContractBatch_length env cs st,
   (processContractBatch_map_results env cs st).1,
   (processContractBatch_map_results env cs st).2⟩

/-- C4: batch preparation deduplicates by internal id with last-write-wins —
looking up any configuration-entry name (the internal id) or artifact
filename in the prepared batch yields exactly the last processed item with
that key, the prepared lists hold at most one element per key, and the
coordinator still emits one per-item result per input item. -/
theorem batch_dedup_last_write_wins (ps : List ProcessedContract)
    (k : String) (env : Env) (cs : List AddContractRequest)
    (st : ProcState) :
    findByKey RindexerContract.name k (prepareContractBatch ps).1 =
      lastBy RindexerContract.name k (ps.map ProcessedContract.contract) ∧
    findByKey AbiFile.filename k (prepareContractBatch ps).2 =
      lastBy AbiFile.filename k (ps.map ProcessedContract.abiFile) ∧
    (keysOf RindexerContract.name (prepareContractBatch ps).1).Nodup ∧
    (keysOf AbiFile.filename (prepareContractBatch ps).2).Nodup ∧
    (processContractBatch env cs st).1.length = cs.length := by
  have hc : ps.foldl
      (fun m p => upsertBy RindexerContract.name m p.contract) [] =
      (ps.map ProcessedContract.contract).foldl
        (upsertBy RindexerContract.name) [] :=
    (List.foldl_map _ _ _ _).symm
  have hf : ps.foldl
      (fun m p => upsertBy AbiFile.filename m p.abiFile) [] =
      (ps.map ProcessedContract.abiFile).foldl
        (upsertBy AbiFile.filename) [] :=
    (List.foldl_map _ _ _ _).symm
  refine ⟨?_, ?_, ?_, ?_, processContractBatch_length env cs st⟩
  · rw [prepareContractBatch, hc, findByKey_foldl_upsertBy,
      show findByKey RindexerContract.name k ([] : List RindexerContract) =
        none from rfl, Option.or_none]
  · rw [prepareContractBatch, hf, findByKey_foldl_upsertBy,
      show findByKey AbiFile.filename k ([] : List AbiFile) = none from rfl,
      Option.or_none]
  · rw [prepareContractBatch, hc]
    exact nodup_keysOf_foldl_upsertBy _ _ [] (by simp [keysOf])
  · rw [prepareContractBatch, hf]
    exact nodup_keysOf_foldl_upsertBy _ _ [] (by simp [keysOf])

/-- C2: after a merge the configuration document holds the merged contract
list, which has exactly one entry per internal id: merge-input entries
replace existing entries with the same id (the last input entry for an id
wins), existing entries whose id is not in the input are preserved
unchanged, no entry with an id from outside the two lists appears, and no
id from either list is lost. -/
theorem merge_exactly_one_entry (cfg : RindexerConfig)
    (ex new : List RindexerContract) (hc : cfg.contracts = some ex)
    (hex : (keysOf RindexerContract.name ex).Nodup) :
    (updateRindexerConfig new cfg).contracts =
      some (mergeContracts ex new) ∧
    (keysOf RindexerContract.name (mergeContracts ex new)).Nodup ∧
    (∀ c ∈ ex, c.name ∉ keysOf RindexerContract.name new →
      c ∈ mergeContracts ex new) ∧
    (∀ k, k ∈ keysOf RindexerContract.name new →
      findByKey RindexerContract.name k (mergeContracts ex new) =
        lastBy RindexerContract.name k new) ∧
    (∀ c ∈ mergeContracts ex new,
      c.name ∈ keysOf RindexerContract.name ex ∨
      c.name ∈ keysOf RindexerContract.name new) ∧
    (∀ k, k ∈ keysOf RindexerContract.name ex ∨
        k ∈ keysOf RindexerContract.name new →
      ∃ c ∈ mergeContracts ex new, c.name = k) := by
  refine ⟨by rw [updateRindexerConfig, hc]; rfl, nodup_mergeContracts ex new,
    ?_, ?_, ?_, ?_⟩
  · intro c hcm hck
    have h1 : lastBy RindexerContract.name c.name new = none :=
      lastBy_eq_none_of_not_mem _ _ _ hck
    have h2 : lastBy RindexerContract.name c.name ex = some c := by
      rw [lastBy]
      exact findByKey_eq_some_of_mem RindexerContract.name ex.reverse c
        (by rw [keysOf, List.map_reverse, ← keysOf]
            exact List.nodup_reverse.mpr hex)
        (List.mem_reverse.mpr hcm)
    have h3 := findByKey_mergeContracts ex new c.name
    rw [h1, h2, Option.none_or, findByKey] at h3
    exact List.mem_of_find?_eq_some h3
  · intro k hk
    rw [findByKey_mergeContracts]
    have h2 := lastBy_isSome_of_mem_keysOf RindexerContract.name k new hk
    cases hnew : lastBy RindexerContract.name k new with
    | some x => rw [Option.or_some]
    | none => rw [hnew] at h2; simp at h2
  · intro c hcmem
    have hfind : findByKey RindexerContract.name c.name
        (mergeContracts ex new) = some c :=
      findByKey_eq_some_of_mem RindexerContract.name _ c
        (nodup_mergeContracts ex new) hcmem
    rw [findByKey_mergeContracts] at hfind
    cases hn : lastBy RindexerContract.name c.name new with
    | some x =>
      right
      exact mem_keysOf_of_lastBy_isSome RindexerContract.name _ new
        (by rw [hn]; rfl)
    | none =>
      left
      rw [hn, Option.none_or] at hfind
      exact mem_keysOf_of_lastBy_isSome RindexerContract.name _ ex
        (by rw [hfind]; rfl)
  · intro k hk
    have hsome : (findByKey RindexerContract.name k
        (mergeContracts ex new)).isSome = true := by
      rw [findByKey_mergeContracts]
      rcases hk with h | h
      · cases hnew : lastBy RindexerContract.name k new with
        | some x => rfl
        | none =>
          rw [Option.none_or]
          exact lastBy_isSome_of_mem_keysOf _ k ex h
      · have h2 := lastBy_isSome_of_mem_keysOf _ k new h
        cases hnew : lastBy RindexerContract.name k new with
        | some x => rfl
        | none => rw [hnew] at h2; simp at h2
    obtain ⟨x, hx⟩ := Option.isSome_iff_exists.mp hsome
    obtain ⟨hmem, hkey⟩ := findByKey_mem_key _ k _ x hx
    exact ⟨x, hmem, hkey⟩

/-- Witness for C2 on a concrete document with an empty contract list and a
one-entry merge input. -/
theorem merge_exactly_one_entry_witness :
    cfg0.contracts = some ([] : List RindexerContract) ∧
    (keysOf RindexerContract.name ([] : List RindexerContract)).Nodup ∧
    (updateRindexerConfig [entB] cfg0).contracts =
      some (mergeContracts [] [entB]) ∧
    (keysOf RindexerContract.name (mergeContracts [] [entB])).Nodup :=
  ⟨rfl, by simp [keysOf],
   (merge_exactly_one_entry cfg0 [] [entB] rfl (by simp [keysOf])).1,
   (merge_exactly_one_entry cfg0 [] [entB] rfl (by simp [keysOf])).2.1⟩

/-- C3 counterexample: the validator accepts a request whose `network` and
`start_block` fields are missing, so it does not check all required fields
of the claim's list. -/
theorem validator_network_unchecked_counterexample :
    c3req.network = none ∧ c3req.start_block = none ∧
    validateContract (fun _ => none) c3req = none :=
  ⟨rfl, rfl, rfl⟩

/-- C3 amended: the validator checks, in order, presence and non-emptiness
of `name`, `report_id` and `address`, then the 0x-prefixed 40-hex-digit
address pattern, then presence of the ABI, then that the ABI parses (a
parse failure becomes a returned validation failure); it never inspects
`network` or `start_block`; and a request passing exactly these checks
yields no failure. -/
theorem validator_checks_amended (jp : String → Option ContractAbi)
    (c : AddContractRequest) :
    (validateContract jp c = none ↔
      (strPresent c.name = true ∧ strPresent c.report_id = true ∧
       strPresent c.address = true ∧
       isValidEthereumAddress (c.address.getD "") = true ∧
       abiPresent c.abi = true ∧ ∃ a, parseAbiField jp c.abi = .ok a)) ∧
    (∀ n sb, validateContract jp
        { c with network := n, start_block := sb } =
      validateContract jp c) ∧
    (∀ rid net addr sb abi, validateContract jp
        { name := none, report_id := rid, network := net, address := addr,
          start_block := sb, abi := abi } =
      some "Contract name is required and must be a string") := by
  refine ⟨?_, fun n sb => rfl, fun rid net addr sb abi => rfl⟩
  rw [validateContract]
  cases h1 : strPresent c.name with
  | false => simp [h1]
  | true =>
    cases h2 : strPresent c.report_id with
    | false => simp [h1, h2]
    | true =>
      cases h3 : strPresent c.address with
      | false => simp [h1, h2, h3]
      | true =>
        cases h4 : isValidEthereumAddress (c.address.getD "") with
        | false => simp [h1, h2, h3, h4]
        | true =>
          cases h5 : abiPresent c.abi with
          | false => simp [h1, h2, h3, h4, h5]
          | true =>
            cases hp : parseAbiField jp c.abi with
            | error e => simp [h1, h2, h3, h4, h5, hp]
            | ok a => simp [h1, h2, h3, h4, h5, hp]

/-- C6: a batch whose contract list exceeds the 50-item limit is rejected
by the handler before any per-item processing, with the success-false
response carrying the limit error message and the world state — mapping
store, configuration document, artifact files and process — completely
unchanged. -/
theorem batch_over_limit_rejected (env : Env)
    (contracts : List AddContractRequest) (w : WorldState)
    (h : MAX_CONTRACTS_PER_REQUEST < contracts.length) :
    addContractsHandler env (some contracts) w =
      ({ success := false, results := [],
         error := some "Maximum 50 contracts allowed per batch" }, w) := by
  rw [addContractsHandler, validateBatchRequest]
  rw [if_neg (by omega), if_pos h]

/-- Witness for C6 on a 51-item batch. -/
theorem batch_over_limit_rejected_witness :
    MAX_CONTRACTS_PER_REQUEST < (List.replicate 51 c0).length ∧
    addContractsHandler env0 (some (List.replicate 51 c0)) w0 =
      ({ success := false, results := [],
         error := some "Maximum 50 contracts allowed per batch" }, w0) :=
  ⟨by decide,
   batch_over_limit_rejected env0 (List.replicate 51 c0) w0 (by decide)⟩

/-- C7: when every per-item result of the handler's response is a failure,
the batch is reported as failed (`success = false`) and no side effects
are committed: the configuration document, the artifact directory and the
process restart count are all unchanged. -/
theorem batch_zero_success_no_side_effects (env : Env)
    (body : Option (List AddContractRequest)) (w : WorldState)
    (resp : BatchApiResponse) (w' : WorldState)
    (h : addContractsHandler env body w = (resp, w'))
    (hall : ∀ r ∈ resp.results, r.success = false) :
    resp.success = false ∧ w'.config = w.config ∧ w'.files = w.files ∧
    w'.restarts = w.restarts := by
  rw [addContractsHandler] at h
  cases hv : validateBatchRequest body with
  | some err =>
    rw [hv] at h
    simp only [Prod.mk.injEq] at h
    obtain ⟨h1, h2⟩ := h
    subst h1 h2
    exact ⟨rfl, rfl, rfl, rfl⟩
  | none =>
    rcases hbatch : processContractBatch env (body.getD [])
      { rows := w.rows, nextId := w.nextId } with ⟨results, processed, st⟩
    simp only [hv, hbatch] at h
    by_cases hemp : processed.isEmpty = true
    · rw [if_pos hemp] at h
      simp only [Prod.mk.injEq] at h
      obtain ⟨h1, h2⟩ := h
      subst h1 h2
      exact ⟨rfl, rfl, rfl, rfl⟩
    · rw [if_neg hemp] at h
      simp only [Prod.mk.injEq] at h
      obtain ⟨h1, h2⟩ := h
      subst h1
      have hall' : ∀ r ∈ (processContractBatch env (body.getD [])
          { rows := w.rows, nextId := w.nextId }).1, r.success = false := by
        rw [hbatch]
        intro r hr
        exact hall r hr
      have hnil := processed_nil_of_all_fail env (body.getD []) _ hall'
      rw [hbatch] at hnil
      simp only at hnil
      rw [hnil] at hemp
      exact absurd rfl hemp

/-- Witness for C7 on a one-item batch whose only item fails validation. -/
theorem batch_zero_success_no_side_effects_witness :
    addContractsHandler env0 (some [cBad]) w0 = (respBad, w0) ∧
    (∀ r ∈ respBad.results, r.success = false) ∧
    (respBad.success = false ∧ w0.config = w0.config ∧
      w0.files = w0.files ∧ w0.restarts = w0.restarts) :=
  ⟨rfl, by decide,
   batch_zero_success_no_side_effects env0 (some [cBad]) w0 respBad w0 rfl
     (by decide)⟩

/-- C8: the artifact path is the deterministic function
`ABIS_DIR/<indexerId>.abi.json` of the internal id (also for the record
built by `processContract`), and writing the same id twice with different
contents leaves exactly one file at that path holding the latest content,
with path uniqueness preserved. -/
theorem artifact_write_idempotent (fs : List (String × String))
    (id ca cb : String) (h : (keysOf Prod.fst fs).Nodup) :
    findByKey Prod.fst (abiFilePath (abiFilename id))
        (writeAbiFiles
          (writeAbiFiles fs [{ filename := abiFilename id, content := ca }])
          [{ filename := abiFilename id, content := cb }]) =
      some (abiFilePath (abiFilename id), cb) ∧
    (keysOf Prod.fst (writeAbiFiles
        (writeAbiFiles fs [{ filename := abiFilename id, content := ca }])
        [{ filename := abiFilename id, content := cb }])).Nodup ∧
    ((writeAbiFiles
        (writeAbiFiles fs [{ filename := abiFilename id, content := ca }])
        [{ filename := abiFilename id, content := cb }]).filter
      (fun e => e.1 == abiFilePath (abiFilename id))).length = 1 ∧
    (∀ env c st p st', processContract env c st = .ok (p, st') →
      p.abiFile.filename = abiFilename p.indexerId) := by
  have e1 : writeAbiFiles fs [{ filename := abiFilename id, content := ca }] =
      upsertBy Prod.fst fs (abiFilePath (abiFilename id), ca) := rfl
  have e2 : writeAbiFiles
      (upsertBy Prod.fst fs (abiFilePath (abiFilename id), ca))
      [{ filename := abiFilename id, content := cb }] =
      upsertBy Prod.fst
        (upsertBy Prod.fst fs (abiFilePath (abiFilename id), ca))
        (abiFilePath (abiFilename id), cb) := rfl
  rw [e1, e2]
  refine ⟨?_, ?_, ?_, ?_⟩
  · rw [findByKey_upsertBy, if_pos (by simp)]
  · exact nodup_keysOf_upsertBy _ _ _ (nodup_keysOf_upsertBy _ _ _ h)
  · exact filter_key_length_one Prod.fst (abiFilePath (abiFilename id)) _
      (nodup_keysOf_upsertBy _ _ _ (nodup_keysOf_upsertBy _ _ _ h))
      (abiFilePath (abiFilename id), cb)
      (by rw [findByKey_upsertBy, if_pos (by simp)])
  · intro env c st p st' hok
    cases hp : parseAbiField env.jsonParse c.abi with
    | error e =>
      rw [processContract, hp] at hok
      exact absurd hok (by simp)
    | ok a =>
      cases hl : lookupIndexerId st.rows (nameUuidOf c) with
      | some i =>
        rw [processContract_some env c st a i hp hl] at hok
        simp only [Except.ok.injEq, Prod.mk.injEq] at hok
        obtain ⟨h1, _⟩ := hok
        subst h1
        rfl
      | none =>
        rw [processContract_none env c st a hp hl] at hok
        simp only [Except.ok.injEq, Prod.mk.injEq] at hok
        obtain ⟨h1, _⟩ := hok
        subst h1
        rfl

/-- Witness for C8 writing id "x" twice into an empty directory. -/
theorem artifact_write_idempotent_witness :
    (keysOf Prod.fst ([] : List (String × String))).Nodup ∧
    findByKey Prod.fst (abiFilePath (abiFilename "x"))
        (writeAbiFiles
          (writeAbiFiles []
            [{ filename := abiFilename "x", content := "a" }])
          [{ filename := abiFilename "x", content := "b" }]) =
      some (abiFilePath (abiFilename "x"), "b") :=
  ⟨by simp [keysOf],
   (artifact_write_idempotent [] "x" "a" "b" (by simp [keysOf])).1⟩

end Catapulta
